import Mathlib

/-!
Verification of the CSV ingestion and aggregation engine of the
health-dashboard repository (`src/csv_parser.py`, class `LoseItCSVParser`).

Embedding conventions:
* A raw CSV row (the dict produced by `csv.DictReader`) is modelled as an
  association list from column name to cell string; `pyGet` models
  `row.get(k)` (`none` = key absent = Python `None`).
* Python float values are modelled as exact rationals (`ℚ`); the claims under
  study are about parsing, summation, defaulting and overwrite structure, not
  about binary floating-point rounding.
* `dateutil.parser.parse(s).date().isoformat()` is modelled by `parseDateKey`
  restricted to numeric `Y-M-D` inputs (the export's date format); any string
  outside that fragment is a parse failure.  No theorem below depends on which
  strings the date parser accepts, only on success/failure and on the returned
  key.
* Python's `sorted(..., key=lambda x: x['date'])` is a stable sort by the date
  string; it is modelled by `List.insertionSort` (stable, and the lists being
  sorted always have pairwise-distinct date keys, so any stable sort by date
  produces the same list).
* The `print` warnings of the parser are modelled as a returned list of
  warning strings (one per unparseable date, as in the source); the warning
  stream and the day dictionary do not influence each other in the loop, so
  they are threaded as the two independent components of the result.
-/

namespace LoseIt

/-- A raw CSV row: ordered mapping from column name to cell text, as produced
by `csv.DictReader`. -/
abbrev Row := List (String × String)

/-- Models `row.get(k)`: value of the first binding of key `k`, if any. -/
def pyGet (row : Row) (k : String) : Option String :=
  (row.find? (fun p => p.1 = k)).map Prod.snd

/-- Python truthiness of `row.get(k)`: `None` and `""` are falsy, every other
string is truthy. -/
def truthy (v : Option String) : Bool :=
  match v with
  | none => false
  | some s => decide (s ≠ "")

/-- Characters of a decimal digit string interpreted as a natural number. -/
def natOfDigits (cs : List Char) : ℕ :=
  cs.foldl (fun n c => 10 * n + (c.toNat - 48)) 0

/-- All characters are ASCII digits. -/
def allDigits (cs : List Char) : Bool :=
  cs.all (fun c => c.isDigit)

/-- Gregorian leap year test. -/
def isLeapYear (y : ℕ) : Bool :=
  y % 4 = 0 && (y % 100 ≠ 0 || y % 400 = 0)

/-- Number of days of month `m` of year `y`. -/
def daysInMonth (y m : ℕ) : ℕ :=
  if m = 2 then (if isLeapYear y then 29 else 28)
  else if m = 4 || m = 6 || m = 9 || m = 11 then 30
  else 31

/-- Two-digit zero-padded decimal rendering of `n < 100`. -/
def pad2 (n : ℕ) : String :=
  if n < 10 then ⟨['0', Char.ofNat (48 + n)]⟩
  else ⟨[Char.ofNat (48 + n / 10), Char.ofNat (48 + n % 10)]⟩

/-- Split a character list at `'-'` separators. -/
def splitDash (cs : List Char) : List (List Char) :=
  match cs with
  | [] => [[]]
  | c :: t =>
    if c = '-' then [] :: splitDash t
    else
      match splitDash t with
      | [] => [[c]]
      | g :: gs => (c :: g) :: gs

/-- Models `date_parser.parse(date_str).date().isoformat()` restricted to
numeric `Y-M-D` dates (4-digit year, 1-2 digit month and day, calendar-valid):
returns the canonical zero-padded ISO `YYYY-MM-DD` key, or `none` when parsing
fails.  `dateutil` accepts further formats; the theorems below use this
function only through success/failure and the produced key. -/
def parseDateKey (s : String) : Option String :=
  match splitDash s.data with
  | [ys, ms, ds] =>
    if ys.length = 4 && allDigits ys && allDigits ms && decide (1 ≤ ms.length)
        && ms.length ≤ 2 && allDigits ds && decide (1 ≤ ds.length) && ds.length ≤ 2 then
      let y := natOfDigits ys
      let m := natOfDigits ms
      let d := natOfDigits ds
      if 1 ≤ m && m ≤ 12 && 1 ≤ d && d ≤ daysInMonth y m then
        some (⟨ys⟩ ++ "-" ++ pad2 m ++ "-" ++ pad2 d)
      else none
    else none
  | _ => none

/-- Value of a decimal digit list as a rational. -/
def digitsVal (cs : List Char) : ℚ :=
  cs.foldl (fun q c => 10 * q + ((c.toNat - 48 : ℕ) : ℚ)) 0

/-- Models Python `float(s)` on plain decimal literals (optional sign, integer
part, optional fraction part): `none` when conversion raises `ValueError`.
Exponent notation, `inf`/`nan` and surrounding whitespace — all accepted by
`float` but never produced by the export nor exercised by the spec — are out
of scope and treated as failures. -/
def parseDecimal (s : String) : Option ℚ :=
  let signed : ℚ × List Char :=
    match s.data with
    | '-' :: t => (-1, t)
    | '+' :: t => (1, t)
    | t => (1, t)
  let sgn := signed.1
  let cs := signed.2
  let ip := cs.takeWhile (fun c => c.isDigit)
  let rest := cs.dropWhile (fun c => c.isDigit)
  match rest with
  | [] => if ip.isEmpty then none else some (sgn * digitsVal ip)
  | '.' :: fp =>
    if allDigits fp && decide (ip.length + fp.length ≠ 0) then
      some (sgn * (digitsVal ip + digitsVal fp / (10 : ℚ) ^ fp.length))
    else none
  | _ => none

/-- Remove every comma (thousands separator), as `value.replace(',', '')`. -/
def stripCommas (s : String) : String :=
  ⟨s.data.filter (fun c => c ≠ ',')⟩

/-- Translation of `LoseItCSVParser._parse_number`.  `none` stands both for
Python `None` and for the integer default `0` of `row.get(key, 0)` (for which
`float(0) = 0.0`, the same result). -/
def _parse_number (v : Option String) : ℚ :=
  match v with
  | none => 0
  | some s =>
    if s = "" then 0
    else
      match parseDecimal (stripCommas s) with
      | some q => q
      | none => 0

/-- Translation of the inline synonym fallback `row.get(k1) or row.get(k2, 0)`
of `parse_csv`: the space-form key's value when it is truthy (present and
non-empty), otherwise the no-space key's value (`none` = the `0` default). -/
def resolve_field (row : Row) (k1 k2 : String) : Option String :=
  if truthy (pyGet row k1) then pyGet row k1 else pyGet row k2

/-- One daily aggregate dict of `parse_csv` (`days[date_key]`). -/
structure DayEntry where
  date : String
  calories : ℚ
  protein_g : ℚ
  carbs_g : ℚ
  fat_g : ℚ
  sodium_mg : ℚ
  sugar_g : ℚ
  fiber_g : ℚ
  weight_lbs : Option ℚ
deriving DecidableEq

/-- The fresh bucket created when a date key is first seen. -/
def initDay (k : String) : DayEntry :=
  { date := k, calories := 0, protein_g := 0, carbs_g := 0, fat_g := 0,
    sodium_mg := 0, sugar_g := 0, fiber_g := 0, weight_lbs := none }

/-- The nutrition accumulation block of `parse_csv` (executed when the row's
`Calories` value is truthy); `_parse_number` is total, so the surrounding
`try/except` is dead code. -/
def addNutrition (e : DayEntry) (row : Row) : DayEntry :=
  { e with
    calories := e.calories + _parse_number (pyGet row "Calories"),
    protein_g := e.protein_g + _parse_number (resolve_field row "Protein (g)" "Protein(g)"),
    carbs_g := e.carbs_g + _parse_number (resolve_field row "Carbohydrates (g)" "Carbohydrates(g)"),
    fat_g := e.fat_g + _parse_number (resolve_field row "Fat (g)" "Fat(g)"),
    sodium_mg := e.sodium_mg + _parse_number (resolve_field row "Sodium (mg)" "Sodium(mg)"),
    sugar_g := e.sugar_g + _parse_number (resolve_field row "Sugars (g)" "Sugars(g)"),
    fiber_g := e.fiber_g + _parse_number (resolve_field row "Fiber (g)" "Fiber(g)") }

/-- The weight block of `parse_csv` (executed when the row's `Weight` value is
truthy): overwrite, not add. -/
def setWeight (e : DayEntry) (row : Row) : DayEntry :=
  { e with weight_lbs := some (_parse_number (pyGet row "Weight")) }

/-- The `days` dict of `parse_csv` / `all_data` dict of `parse_multiple_csvs`,
as an insertion-ordered association list (Python dicts preserve insertion
order). -/
abbrev Days := List (String × DayEntry)

/-- Dict lookup `d.get(k)`. -/
def lookupA (l : Days) (k : String) : Option DayEntry :=
  (l.find? (fun p => p.1 = k)).map Prod.snd

/-- In-place update of an existing key (Python dict item mutation keeps the
item's position). -/
def replaceA (l : Days) (k : String) (v : DayEntry) : Days :=
  l.map (fun p => if p.1 = k then (k, v) else p)

/-- `d[k] = v`: update in place when present, append when new. -/
def upsert (l : Days) (k : String) (v : DayEntry) : Days :=
  match lookupA l k with
  | some _ => replaceA l k v
  | none => l ++ [(k, v)]

/-- The bucket value stored for `key` after one loop iteration of `parse_csv`
processes `row`: the existing bucket (or a fresh one), with nutrition
accumulated when `Calories` is truthy and weight overwritten when `Weight` is
truthy. -/
def rowEntry (days : Days) (row : Row) (key : String) : DayEntry :=
  let e0 := (lookupA days key).getD (initDay key)
  let e1 := if truthy (pyGet row "Calories") then addNutrition e0 row else e0
  if truthy (pyGet row "Weight") then setWeight e1 row else e1

/-- Effect of one loop iteration of `parse_csv` on the `days` dict:
skip rows with a falsy `Date`, skip (with a warning, see `rowWarn`) rows whose
date fails to parse, otherwise store `rowEntry`. -/
def stepDays (days : Days) (row : Row) : Days :=
  if truthy (pyGet row "Date") then
    match parseDateKey ((pyGet row "Date").getD "") with
    | none => days
    | some key => upsert days key (rowEntry days row key)
  else days

/-- Warnings printed by one loop iteration of `parse_csv`: exactly one, the
unparseable date string, when the `Date` value is truthy but fails to parse;
rows with a falsy `Date` are skipped silently. -/
def rowWarn (row : Row) : List String :=
  if truthy (pyGet row "Date") then
    match parseDateKey ((pyGet row "Date").getD "") with
    | none => [(pyGet row "Date").getD ""]
    | some _ => []
  else []

/-- Sort key order of `sorted(days.values(), key=lambda x: x['date'])`. -/
def dateLE : DayEntry → DayEntry → Prop := fun a b => a.date ≤ b.date

instance : DecidableRel dateLE := fun a b =>
  inferInstanceAs (Decidable (a.date ≤ b.date))

instance : IsTotal DayEntry dateLE := ⟨fun a b => le_total a.date b.date⟩

instance : IsTrans DayEntry dateLE := ⟨fun _ _ _ h h' => le_trans h h'⟩

/-- Python's stable `sorted` by the date key (the sorted lists always carry
pairwise-distinct dates, so every stable sort agrees). -/
def sortByDate (l : List DayEntry) : List DayEntry :=
  List.insertionSort dateLE l

/-- Translation of `LoseItCSVParser.parse_csv`, taking the decoded row list
(`csv.DictReader` output) as input.  First component: the daily aggregates,
sorted ascending by date.  Second component: the date-parse warning strings,
in row order. -/
def parse_csv (rows : List Row) : List DayEntry × List String :=
  ((sortByDate ((rows.foldl stepDays []).map Prod.snd)),
   (rows.map rowWarn).flatten)

/-- Python truthiness of the merged `entry['weight_lbs']` value
(`None` and `0.0` are falsy). -/
def wTruthy (w : Option ℚ) : Bool :=
  match w with
  | none => false
  | some q => decide (q ≠ 0)

/-- The per-date merge of `parse_multiple_csvs` when the date is already
present: sum the seven nutrition fields, overwrite the weight only when the
incoming entry's weight is truthy. -/
def combine (old e : DayEntry) : DayEntry :=
  { old with
    calories := old.calories + e.calories,
    protein_g := old.protein_g + e.protein_g,
    carbs_g := old.carbs_g + e.carbs_g,
    fat_g := old.fat_g + e.fat_g,
    sodium_mg := old.sodium_mg + e.sodium_mg,
    sugar_g := old.sugar_g + e.sugar_g,
    fiber_g := old.fiber_g + e.fiber_g,
    weight_lbs := if wTruthy e.weight_lbs then e.weight_lbs else old.weight_lbs }

/-- Merge one parsed entry into the `all_data` dict. -/
def mergeEntry (acc : Days) (e : DayEntry) : Days :=
  match lookupA acc e.date with
  | some old => replaceA acc e.date (combine old e)
  | none => acc ++ [(e.date, e)]

/-- Merge one batch (one CSV file's `parse_csv` result) into `all_data`. -/
def mergeBatch (acc : Days) (rows : List Row) : Days :=
  ((parse_csv rows).1).foldl mergeEntry acc

/-- Translation of `LoseItCSVParser.parse_multiple_csvs`: parse every batch,
merge by date into `all_data` in batch order, and return the values sorted
ascending by date. -/
def parse_multiple_csvs (batches : List (List Row)) : List DayEntry :=
  sortByDate ((batches.foldl mergeBatch []).map Prod.snd)

/-- Modelled from the spec: one normalized per-food record (§3 `FoodEntry`).
The `extract_foods` variant of the parser is not present in the repository
snapshot (its caller `sync_data.py` invokes
`parse_multiple_csvs(csv_files, extract_foods=True)` and unpacks two result
collections), so the record and its extraction are modelled from §3/§4.2 of
the spec: fields are taken directly from the row with no summation, the food
name defaults to the sentinel "Unknown". -/
structure FoodEntry where
  date : String
  food_name : String
  quantity : String
  calories : ℚ
  protein_g : ℚ
  carbs_g : ℚ
  fat_g : ℚ
  sodium_mg : ℚ
  sugar_g : ℚ
  fiber_g : ℚ
deriving DecidableEq

/-- Modelled from the spec: build the FoodEntry of one row (§3, §4.2 step 4). -/
def mkFoodEntry (row : Row) : FoodEntry :=
  { date := (pyGet row "Date").getD "",
    food_name := if truthy (pyGet row "Name") then (pyGet row "Name").getD "" else "Unknown",
    quantity := (pyGet row "Quantity").getD "",
    calories := _parse_number (pyGet row "Calories"),
    protein_g := _parse_number (resolve_field row "Protein (g)" "Protein(g)"),
    carbs_g := _parse_number (resolve_field row "Carbohydrates (g)" "Carbohydrates(g)"),
    fat_g := _parse_number (resolve_field row "Fat (g)" "Fat(g)"),
    sodium_mg := _parse_number (resolve_field row "Sodium (mg)" "Sodium(mg)"),
    sugar_g := _parse_number (resolve_field row "Sugars (g)" "Sugars(g)"),
    fiber_g := _parse_number (resolve_field row "Fiber (g)" "Fiber(g)") }

/-- Modelled from the spec: the FoodEntry produced by one row, if any — one
entry per row that carries calorie data (§4.2 step 4), within the rows that
survive date resolution (§4.1: rows without a resolvable date are skipped
before any extraction). -/
def rowFood (row : Row) : Option FoodEntry :=
  if truthy (pyGet row "Date") then
    match parseDateKey ((pyGet row "Date").getD "") with
    | none => none
    | some _ =>
      if truthy (pyGet row "Calories") then some (mkFoodEntry row) else none
  else none

/-- Modelled from the spec: the food entries of one batch, appended one per
qualifying row in row-encounter order (§4.2 step 4/5). -/
def foodsOf (rows : List Row) : List FoodEntry :=
  rows.foldl (fun acc r => acc ++ (rowFood r).toList) []

/-- Modelled from the spec: `parse_csv` with the "extract food entries"
toggle (§4.2 step 5): the aggregates and warnings as in `parse_csv`, plus the
food-entry list (empty when extraction is disabled). -/
def parse_csv_ext (rows : List Row) (extract_foods : Bool) :
    (List DayEntry × List String) × List FoodEntry :=
  (parse_csv rows, if extract_foods then foodsOf rows else [])

/-- Modelled from the spec: `parse_multiple_csvs` with the
`extract_foods` toggle, as invoked by `sync_data.py` (§4.3): the merged daily
aggregates alongside the FoodEntry lists concatenated in batch order with no
deduplication. -/
def parse_multiple_csvs_ext (batches : List (List Row)) (extract_foods : Bool) :
    List DayEntry × List FoodEntry :=
  (parse_multiple_csvs batches,
   if extract_foods then batches.foldl (fun acc b => acc ++ foodsOf b) [] else [])

/-- The unique entry of an aggregate list holding a given date, if any. -/
def entryFor (l : List DayEntry) (k : String) : Option DayEntry :=
  l.find? (fun e => e.date = k)

/-- The weight recorded for a date in an aggregate list. -/
def weightAt (l : List DayEntry) (k : String) : Option ℚ :=
  (entryFor l k).bind (fun e => e.weight_lbs)

/-- The weight recorded for a date key in the days dict. -/
def wAtA (acc : Days) (k : String) : Option ℚ :=
  (lookupA acc k).bind (fun e => e.weight_lbs)

/-- A nutrition projection of an optional entry, defaulting to `0`. -/
def optF (f : DayEntry → ℚ) (o : Option DayEntry) : ℚ :=
  match o with
  | some e => f e
  | none => 0

/-- Per-field cross-batch sum: the sum, over all batches, of the field of the
batch's aggregate for date `k` (batches that did not touch `k` contribute 0). -/
def nutritionSum (batches : List (List Row)) (k : String) (f : DayEntry → ℚ) : ℚ :=
  (batches.map (fun b => optF f (entryFor (parse_csv b).1 k))).sum

/-- Doubling of the seven nutrition accumulators only. -/
def doubleNutrition (e : DayEntry) : DayEntry :=
  { e with
    calories := 2 * e.calories,
    protein_g := 2 * e.protein_g,
    carbs_g := 2 * e.carbs_g,
    fat_g := 2 * e.fat_g,
    sodium_mg := 2 * e.sodium_mg,
    sugar_g := 2 * e.sugar_g,
    fiber_g := 2 * e.fiber_g }

/-- Well-formedness of the days dict: pairwise-distinct keys, and every stored
entry's `date` field equals its key. -/
def goodKeys (l : Days) : Prop :=
  (l.map Prod.fst).Nodup ∧ ∀ p ∈ l, p.2.date = p.1

/-! ### Association-list lemmas for the day dictionaries -/

theorem lookupA_nil (k : String) : lookupA [] k = none := rfl

theorem lookupA_cons (p : String × DayEntry) (l : Days) (k : String) :
    lookupA (p :: l) k = if p.1 = k then some p.2 else lookupA l k := by
  by_cases h : p.1 = k <;> simp [lookupA, List.find?_cons, h]

theorem lookupA_append_of_none {l₁ : Days} {k : String} (l₂ : Days)
    (h : lookupA l₁ k = none) : lookupA (l₁ ++ l₂) k = lookupA l₂ k := by
  induction l₁ with
  | nil => simp
  | cons p t ih =>
    rw [lookupA_cons] at h
    by_cases hp : p.1 = k
    · simp [hp] at h
    · rw [if_neg hp] at h
      simpa [lookupA_cons, hp] using ih h

theorem lookupA_eq_none_iff {l : Days} {k : String} :
    lookupA l k = none ↔ k ∉ l.map Prod.fst := by
  induction l with
  | nil => simp [lookupA]
  | cons p t ih =>
    rw [lookupA_cons]
    by_cases hp : p.1 = k
    · simp [hp]
    · simp only [if_neg hp, List.map_cons, List.mem_cons, ih]
      constructor
      · intro h hk
        rcases hk with hk | hk
        · exact hp hk.symm
        · exact h hk
      · intro h hk
        exact h (Or.inr hk)

theorem lookupA_good {l : Days} {k : String} {e : DayEntry}
    (hg : goodKeys l) (h : lookupA l k = some e) : e.date = k := by
  unfold lookupA at h
  cases hfind : l.find? (fun p => p.1 = k) with
  | none => rw [hfind] at h; simp at h
  | some q =>
    rw [hfind] at h
    have hq : q.1 = k := by simpa using List.find?_some hfind
    have hm : q ∈ l := List.mem_of_find?_eq_some hfind
    have h2 : q.2 = e := by simpa using h
    rw [← h2, hg.2 q hm, hq]

theorem replaceA_cons (p : String × DayEntry) (t : Days) (k : String) (v : DayEntry) :
    replaceA (p :: t) k v = (if p.1 = k then (k, v) else p) :: replaceA t k v := rfl

theorem replaceA_keys (l : Days) (k : String) (v : DayEntry) :
    (replaceA l k v).map Prod.fst = l.map Prod.fst := by
  induction l with
  | nil => rfl
  | cons p t ih =>
    rw [replaceA_cons, List.map_cons, List.map_cons, ih]
    by_cases hp : p.1 = k
    · rw [if_pos hp, hp]
    · rw [if_neg hp]

theorem replaceA_of_none {l : Days} {k : String} (v : DayEntry)
    (h : lookupA l k = none) : replaceA l k v = l := by
  induction l with
  | nil => rfl
  | cons p t ih =>
    rw [lookupA_cons] at h
    by_cases hp : p.1 = k
    · rw [if_pos hp] at h
      simp at h
    · rw [if_neg hp] at h
      rw [replaceA_cons, if_neg hp, ih h]

theorem replaceA_append (l₁ l₂ : Days) (k : String) (v : DayEntry) :
    replaceA (l₁ ++ l₂) k v = replaceA l₁ k v ++ replaceA l₂ k v := by
  simp [replaceA]

theorem lookupA_replaceA_of_some {l : Days} {k : String} {e : DayEntry} (v : DayEntry)
    (h : lookupA l k = some e) : lookupA (replaceA l k v) k = some v := by
  induction l with
  | nil => simp [lookupA] at h
  | cons p t ih =>
    rw [lookupA_cons] at h
    rw [replaceA_cons]
    by_cases hp : p.1 = k
    · rw [if_pos hp, lookupA_cons, if_pos rfl]
    · rw [if_neg hp] at h
      rw [if_neg hp, lookupA_cons, if_neg hp]
      exact ih h

theorem lookupA_replaceA_other {l : Days} {k k' : String} (v : DayEntry)
    (h : k' ≠ k) : lookupA (replaceA l k v) k' = lookupA l k' := by
  induction l with
  | nil => rfl
  | cons p t ih =>
    rw [replaceA_cons, lookupA_cons, lookupA_cons]
    by_cases hp : p.1 = k
    · rw [if_pos hp, if_neg (show ¬(k, v).1 = k' from fun hk => h hk.symm),
        if_neg (by rw [hp]; exact fun hk => h hk.symm)]
      exact ih
    · rw [if_neg hp]
      by_cases hp' : p.1 = k'
      · rw [if_pos hp', if_pos hp']
      · rw [if_neg hp', if_neg hp']
        exact ih

theorem lookupA_append_single_other {k k' : String} (l : Days) (v : DayEntry)
    (h : k' ≠ k) : lookupA (l ++ [(k, v)]) k' = lookupA l k' := by
  induction l with
  | nil =>
    show lookupA [(k, v)] k' = none
    rw [show ([(k, v)] : Days) = (k, v) :: [] from rfl, lookupA_cons,
      if_neg (show ¬(k, v).1 = k' from fun hk => h hk.symm)]
    rfl
  | cons p t ih =>
    rw [List.cons_append, lookupA_cons, lookupA_cons]
    by_cases hp : p.1 = k'
    · rw [if_pos hp, if_pos hp]
    · rw [if_neg hp, if_neg hp]
      exact ih

theorem lookupA_upsert_self (l : Days) (k : String) (v : DayEntry) :
    lookupA (upsert l k v) k = some v := by
  unfold upsert
  cases h : lookupA l k with
  | some e => exact lookupA_replaceA_of_some v h
  | none =>
    rw [lookupA_append_of_none _ h, lookupA_cons]
    simp

theorem lookupA_upsert_other {l : Days} {k k' : String} (v : DayEntry)
    (h : k' ≠ k) : lookupA (upsert l k v) k' = lookupA l k' := by
  unfold upsert
  cases hl : lookupA l k with
  | some e => exact lookupA_replaceA_other v h
  | none => exact lookupA_append_single_other l v h

theorem goodKeys_nil : goodKeys [] := ⟨List.nodup_nil, by simp⟩

theorem goodKeys_upsert {l : Days} {k : String} {v : DayEntry}
    (hg : goodKeys l) (hv : v.date = k) : goodKeys (upsert l k v) := by
  unfold upsert
  cases h : lookupA l k with
  | some e =>
    refine ⟨by rw [replaceA_keys]; exact hg.1, ?_⟩
    intro p hp
    unfold replaceA at hp
    rcases List.mem_map.mp hp with ⟨q, hq, hqe⟩
    by_cases hqk : q.1 = k
    · rw [if_pos hqk] at hqe
      rw [← hqe]
      exact hv
    · rw [if_neg hqk] at hqe
      rw [← hqe]
      exact hg.2 q hq
  | none =>
    constructor
    · rw [List.map_append]
      simp only [List.map_cons, List.map_nil]
      rw [List.nodup_append]
      refine ⟨hg.1, List.nodup_singleton k, ?_⟩
      intro a ha hak
      rw [List.mem_singleton] at hak
      subst hak
      exact (lookupA_eq_none_iff.mp h) ha
    · intro p hp
      rcases List.mem_append.mp hp with hp | hp
      · exact hg.2 p hp
      · rw [List.mem_singleton] at hp
        subst hp
        exact hv

/-! ### Invariants of the single-batch aggregation -/

theorem addNutrition_date (e : DayEntry) (row : Row) :
    (addNutrition e row).date = e.date := rfl

theorem addNutrition_weight (e : DayEntry) (row : Row) :
    (addNutrition e row).weight_lbs = e.weight_lbs := rfl

theorem setWeight_date (e : DayEntry) (row : Row) :
    (setWeight e row).date = e.date := rfl

theorem initDay_date (k : String) : (initDay k).date = k := rfl

theorem stepDays_skip {l : Days} {row : Row}
    (hd : truthy (pyGet row "Date") = false) : stepDays l row = l := by
  unfold stepDays
  rw [if_neg (by rw [hd]; exact Bool.false_ne_true)]

theorem stepDays_bad_date {l : Days} {row : Row}
    (hd : truthy (pyGet row "Date") = true)
    (hk : parseDateKey ((pyGet row "Date").getD "") = none) :
    stepDays l row = l := by
  unfold stepDays
  rw [if_pos hd, hk]

theorem stepDays_store {l : Days} {row : Row} {key : String}
    (hd : truthy (pyGet row "Date") = true)
    (hk : parseDateKey ((pyGet row "Date").getD "") = some key) :
    stepDays l row = upsert l key (rowEntry l row key) := by
  unfold stepDays
  rw [if_pos hd, hk]

theorem rowEntry_date {l : Days} (row : Row) {key : String} (hg : goodKeys l) :
    (rowEntry l row key).date = key := by
  have he0 : ((lookupA l key).getD (initDay key)).date = key := by
    cases hl : lookupA l key with
    | none => rfl
    | some e => simpa using lookupA_good hg hl
  unfold rowEntry
  by_cases hc : truthy (pyGet row "Calories") = true <;>
    by_cases hw : truthy (pyGet row "Weight") = true <;>
      simp only [hc, hw, if_true, if_false, setWeight_date, addNutrition_date] <;>
      exact he0

theorem rowEntry_weight_no_weight {l : Days} {row : Row} (key : String)
    (hw : truthy (pyGet row "Weight") = false) :
    (rowEntry l row key).weight_lbs = ((lookupA l key).getD (initDay key)).weight_lbs := by
  unfold rowEntry
  rw [if_neg (by rw [hw]; exact Bool.false_ne_true)]
  by_cases hc : truthy (pyGet row "Calories") = true
  · rw [if_pos hc, addNutrition_weight]
  · rw [if_neg hc]

theorem rowEntry_weight_of_weight {l : Days} {row : Row} (key : String)
    (hw : truthy (pyGet row "Weight") = true) :
    (rowEntry l row key).weight_lbs = some (_parse_number (pyGet row "Weight")) := by
  unfold rowEntry
  rw [if_pos hw]
  rfl

theorem goodKeys_stepDays {l : Days} (row : Row) (hg : goodKeys l) :
    goodKeys (stepDays l row) := by
  by_cases hd : truthy (pyGet row "Date") = true
  · cases hk : parseDateKey ((pyGet row "Date").getD "") with
    | none => rw [stepDays_bad_date hd hk]; exact hg
    | some key =>
      rw [stepDays_store hd hk]
      exact goodKeys_upsert hg (rowEntry_date row hg)
  · rw [stepDays_skip (Bool.eq_false_iff.mpr hd)]
    exact hg

theorem goodKeys_foldl_stepDays (rows : List Row) {l : Days} (hg : goodKeys l) :
    goodKeys (rows.foldl stepDays l) := by
  induction rows generalizing l with
  | nil => exact hg
  | cons r t ih => exact ih (goodKeys_stepDays r hg)

theorem combine_date (old e : DayEntry) : (combine old e).date = old.date := rfl

theorem goodKeys_mergeEntry {acc : Days} (e : DayEntry) (hg : goodKeys acc) :
    goodKeys (mergeEntry acc e) := by
  unfold mergeEntry
  cases h : lookupA acc e.date with
  | some old =>
    refine ⟨by rw [replaceA_keys]; exact hg.1, ?_⟩
    intro p hp
    unfold replaceA at hp
    rcases List.mem_map.mp hp with ⟨q, hq, hqe⟩
    by_cases hqk : q.1 = e.date
    · rw [if_pos hqk] at hqe
      rw [← hqe]
      rw [show ((e.date, combine old e) : String × DayEntry).2 = combine old e from rfl,
        combine_date, lookupA_good hg h]
    · rw [if_neg hqk] at hqe
      rw [← hqe]
      exact hg.2 q hq
  | none =>
    constructor
    · rw [List.map_append]
      simp only [List.map_cons, List.map_nil]
      rw [List.nodup_append]
      refine ⟨hg.1, List.nodup_singleton _, ?_⟩
      intro a ha hak
      rw [List.mem_singleton] at hak
      subst hak
      exact (lookupA_eq_none_iff.mp h) ha
    · intro p hp
      rcases List.mem_append.mp hp with hp | hp
      · exact hg.2 p hp
      · rw [List.mem_singleton] at hp
        subst hp
        rfl

theorem goodKeys_foldl_mergeEntry (L : List DayEntry) {acc : Days} (hg : goodKeys acc) :
    goodKeys (L.foldl mergeEntry acc) := by
  induction L generalizing acc with
  | nil => exact hg
  | cons e t ih => exact ih (goodKeys_mergeEntry e hg)

/-! ### Lookup by date in entry lists, and transfer along sorting -/

theorem entryFor_nil (k : String) : entryFor [] k = none := rfl

theorem entryFor_cons (e : DayEntry) (l : List DayEntry) (k : String) :
    entryFor (e :: l) k = if e.date = k then some e else entryFor l k := by
  by_cases h : e.date = k <;> simp [entryFor, List.find?_cons, h]

theorem entryFor_eq_none_iff {l : List DayEntry} {k : String} :
    entryFor l k = none ↔ ∀ e ∈ l, e.date ≠ k := by
  unfold entryFor
  rw [List.find?_eq_none]
  constructor
  · intro h e he
    simpa using h e he
  · intro h e he
    simpa using h e he

theorem entryFor_eq_some_iff {l : List DayEntry} {k : String} {e : DayEntry}
    (hnd : (l.map (fun x => x.date)).Nodup) :
    entryFor l k = some e ↔ e ∈ l ∧ e.date = k := by
  induction l with
  | nil => simp [entryFor_nil]
  | cons x t ih =>
    rw [List.map_cons, List.nodup_cons] at hnd
    rw [entryFor_cons]
    by_cases hx : x.date = k
    · rw [if_pos hx]
      constructor
      · intro h
        have hxe := Option.some.inj h
        subst hxe
        exact ⟨List.mem_cons_self _ _, hx⟩
      · rintro ⟨hm, he⟩
        rcases List.mem_cons.mp hm with rfl | hm
        · rfl
        · exact absurd (show x.date ∈ t.map (fun y => y.date) from
            hx ▸ he ▸ List.mem_map_of_mem _ hm) hnd.1
    · rw [if_neg hx, ih hnd.2]
      constructor
      · rintro ⟨hm, he⟩
        exact ⟨List.mem_cons_of_mem _ hm, he⟩
      · rintro ⟨hm, he⟩
        rcases List.mem_cons.mp hm with rfl | hm
        · exact absurd he hx
        · exact ⟨hm, he⟩

theorem entryFor_of_perm {l l' : List DayEntry} {k : String}
    (hp : l.Perm l') (hnd : (l.map (fun x => x.date)).Nodup) :
    entryFor l k = entryFor l' k := by
  have hnd' : (l'.map (fun x => x.date)).Nodup := ((hp.map _).nodup_iff).mp hnd
  cases h : entryFor l k with
  | some e =>
    rcases (entryFor_eq_some_iff hnd).mp h with ⟨hm, he⟩
    exact ((entryFor_eq_some_iff hnd').mpr ⟨hp.mem_iff.mp hm, he⟩).symm
  | none =>
    have := entryFor_eq_none_iff.mp h
    exact ((entryFor_eq_none_iff.mpr (fun e he => this e (hp.mem_iff.mpr he)))).symm

theorem entryFor_values {acc : Days} (hg : goodKeys acc) (k : String) :
    entryFor (acc.map Prod.snd) k = lookupA acc k := by
  induction acc with
  | nil => rfl
  | cons p t ih =>
    rw [List.map_cons, entryFor_cons, lookupA_cons, hg.2 p (List.mem_cons_self _ _)]
    by_cases hp : p.1 = k
    · rw [if_pos hp, if_pos hp]
    · rw [if_neg hp, if_neg hp]
      exact ih ⟨(List.nodup_cons.mp hg.1).2, fun q hq => hg.2 q (List.mem_cons_of_mem _ hq)⟩

theorem values_dates {acc : Days} (hg : goodKeys acc) :
    (acc.map Prod.snd).map (fun e => e.date) = acc.map Prod.fst := by
  rw [List.map_map]
  exact List.map_congr_left (fun p hp => hg.2 p hp)

theorem values_dates_nodup {acc : Days} (hg : goodKeys acc) :
    ((acc.map Prod.snd).map (fun e => e.date)).Nodup := by
  rw [values_dates hg]
  exact hg.1

theorem sortByDate_perm (l : List DayEntry) : (sortByDate l).Perm l :=
  List.perm_insertionSort dateLE l

theorem sortByDate_sorted (l : List DayEntry) :
    List.Pairwise dateLE (sortByDate l) :=
  List.sorted_insertionSort dateLE l

theorem sortByDate_dates_nodup {l : List DayEntry}
    (hnd : (l.map (fun e => e.date)).Nodup) :
    ((sortByDate l).map (fun e => e.date)).Nodup :=
  (((sortByDate_perm l).map _).nodup_iff).mpr hnd

theorem entryFor_sortByDate {l : List DayEntry} (k : String)
    (hnd : (l.map (fun e => e.date)).Nodup) :
    entryFor (sortByDate l) k = entryFor l k :=
  entryFor_of_perm (sortByDate_perm l) (sortByDate_dates_nodup hnd)

/-! ### `parse_csv` output invariants -/

theorem parse_csv_dates_nodup (rows : List Row) :
    (((parse_csv rows).1).map (fun e => e.date)).Nodup :=
  sortByDate_dates_nodup (values_dates_nodup (goodKeys_foldl_stepDays rows goodKeys_nil))

theorem parse_csv_sorted (rows : List Row) :
    List.Pairwise dateLE (parse_csv rows).1 :=
  sortByDate_sorted _

theorem entryFor_parse_csv (rows : List Row) (k : String) :
    entryFor (parse_csv rows).1 k = lookupA (rows.foldl stepDays []) k := by
  have hg := goodKeys_foldl_stepDays rows goodKeys_nil
  unfold parse_csv
  rw [entryFor_sortByDate k (values_dates_nodup hg), entryFor_values hg]

theorem goodKeys_mergeBatch {acc : Days} (rows : List Row) (hg : goodKeys acc) :
    goodKeys (mergeBatch acc rows) :=
  goodKeys_foldl_mergeEntry _ hg

theorem goodKeys_foldl_mergeBatch (batches : List (List Row)) {acc : Days}
    (hg : goodKeys acc) : goodKeys (batches.foldl mergeBatch acc) := by
  induction batches generalizing acc with
  | nil => exact hg
  | cons b t ih => exact ih (goodKeys_mergeBatch b hg)

theorem parse_multiple_csvs_dates_nodup (batches : List (List Row)) :
    ((parse_multiple_csvs batches).map (fun e => e.date)).Nodup :=
  sortByDate_dates_nodup (values_dates_nodup (goodKeys_foldl_mergeBatch batches goodKeys_nil))

theorem entryFor_parse_multiple_csvs (batches : List (List Row)) (k : String) :
    entryFor (parse_multiple_csvs batches) k = lookupA (batches.foldl mergeBatch []) k := by
  have hg := goodKeys_foldl_mergeBatch batches goodKeys_nil
  unfold parse_multiple_csvs
  rw [entryFor_sortByDate k (values_dates_nodup hg), entryFor_values hg]

/-! ### Characterization of the multi-batch merge -/

theorem mergeEntry_lookup_self (acc : Days) (e : DayEntry) :
    lookupA (mergeEntry acc e) e.date =
      some (match lookupA acc e.date with
            | some old => combine old e
            | none => e) := by
  unfold mergeEntry
  cases h : lookupA acc e.date with
  | some old => exact lookupA_replaceA_of_some _ h
  | none =>
    rw [lookupA_append_of_none _ h, lookupA_cons]
    simp

theorem mergeEntry_lookup_other {k : String} (acc : Days) (e : DayEntry)
    (h : k ≠ e.date) : lookupA (mergeEntry acc e) k = lookupA acc k := by
  unfold mergeEntry
  cases hl : lookupA acc e.date with
  | some old => exact lookupA_replaceA_other _ h
  | none => exact lookupA_append_single_other acc e h

theorem foldl_mergeEntry_lookup_of_absent {L : List DayEntry} {k : String}
    (hL : entryFor L k = none) (acc : Days) :
    lookupA (L.foldl mergeEntry acc) k = lookupA acc k := by
  induction L generalizing acc with
  | nil => rfl
  | cons e t ih =>
    rw [entryFor_cons] at hL
    by_cases he : e.date = k
    · rw [if_pos he] at hL
      simp at hL
    · rw [if_neg he] at hL
      rw [List.foldl_cons, ih hL, mergeEntry_lookup_other _ _ (fun hk => he hk.symm)]

theorem foldl_mergeEntry_lookup {L : List DayEntry} {k : String}
    (hnd : (L.map (fun x => x.date)).Nodup) (acc : Days) :
    lookupA (L.foldl mergeEntry acc) k =
      match entryFor L k with
      | none => lookupA acc k
      | some e =>
        some (match lookupA acc k with
              | some old => combine old e
              | none => e) := by
  induction L generalizing acc with
  | nil => rfl
  | cons e t ih =>
    rw [List.map_cons, List.nodup_cons] at hnd
    rw [entryFor_cons, List.foldl_cons]
    by_cases he : e.date = k
    · rw [if_pos he]
      have ht : entryFor t k = none := by
        rw [entryFor_eq_none_iff]
        intro x hx hxk
        exact hnd.1 (he ▸ hxk ▸ List.mem_map_of_mem _ hx)
      rw [foldl_mergeEntry_lookup_of_absent ht, ← he]
      exact mergeEntry_lookup_self acc e
    · rw [if_neg he, ih hnd.2, mergeEntry_lookup_other _ _ (fun hk => he hk.symm)]

theorem mergeBatch_lookup (acc : Days) (b : List Row) (k : String) :
    lookupA (mergeBatch acc b) k =
      match entryFor (parse_csv b).1 k with
      | none => lookupA acc k
      | some e =>
        some (match lookupA acc k with
              | some old => combine old e
              | none => e) :=
  foldl_mergeEntry_lookup (parse_csv_dates_nodup b) acc

theorem foldl_mergeBatch_field (f : DayEntry → ℚ)
    (hf : ∀ o e, f (combine o e) = f o + f e)
    (batches : List (List Row)) (acc : Days) (k : String) :
    optF f (lookupA (batches.foldl mergeBatch acc) k) =
      optF f (lookupA acc k) +
        (batches.map (fun b => optF f (entryFor (parse_csv b).1 k))).sum := by
  induction batches generalizing acc with
  | nil => simp
  | cons b t ih =>
    rw [List.foldl_cons, ih, List.map_cons, List.sum_cons, mergeBatch_lookup]
    cases hE : entryFor (parse_csv b).1 k with
    | none =>
      simp only [optF]
      ring
    | some e =>
      cases hacc : lookupA acc k with
      | none =>
        simp only [optF]
        ring
      | some old =>
        simp only [optF, hf]
        ring

theorem lookupA_mergeBatch_isSome_mono {acc : Days} {k : String} (b : List Row)
    (h : (lookupA acc k).isSome) : (lookupA (mergeBatch acc b) k).isSome := by
  rw [mergeBatch_lookup]
  cases hE : entryFor (parse_csv b).1 k with
  | none => exact h
  | some e => rfl

theorem lookupA_foldl_mergeBatch_isSome_mono (t : List (List Row)) {acc : Days}
    {k : String} (h : (lookupA acc k).isSome) :
    (lookupA (t.foldl mergeBatch acc) k).isSome := by
  induction t generalizing acc with
  | nil => exact h
  | cons b t' ih => exact ih (lookupA_mergeBatch_isSome_mono b h)

theorem lookupA_mergeBatch_isSome_of_batch {acc : Days} {k : String} {b : List Row}
    (h : (entryFor (parse_csv b).1 k).isSome) :
    (lookupA (mergeBatch acc b) k).isSome := by
  rw [mergeBatch_lookup]
  cases hE : entryFor (parse_csv b).1 k with
  | none => rw [hE] at h; cases h
  | some e => rfl

theorem lookupA_foldl_mergeBatch_isSome {batches : List (List Row)} {k : String}
    (acc : Days) (h : ∃ b ∈ batches, (entryFor (parse_csv b).1 k).isSome) :
    (lookupA (batches.foldl mergeBatch acc) k).isSome := by
  induction batches generalizing acc with
  | nil =>
    rcases h with ⟨b, hb, _⟩
    cases hb
  | cons b t ih =>
    rcases h with ⟨b', hb', hsome⟩
    rcases List.mem_cons.mp hb' with rfl | hb'
    · exact lookupA_foldl_mergeBatch_isSome_mono t
        (lookupA_mergeBatch_isSome_of_batch hsome)
    · exact ih _ ⟨b', hb', hsome⟩

/-! ### Ordering helpers -/

theorem pairwise_lt_of_sorted_nodup {l : List DayEntry}
    (hs : List.Pairwise dateLE l) (hnd : (l.map (fun e => e.date)).Nodup) :
    List.Pairwise (fun a b => a.date < b.date) l := by
  have hne : List.Pairwise (fun a b : DayEntry => a.date ≠ b.date) l :=
    List.pairwise_map.mp hnd
  exact (hs.and hne).imp (fun h => lt_of_le_of_ne h.1 h.2)

theorem filter_date_eq_singleton {l : List DayEntry} {k : String} {e : DayEntry}
    (hnd : (l.map (fun x => x.date)).Nodup) (hm : e ∈ l) (he : e.date = k) :
    l.filter (fun x => x.date = k) = [e] := by
  induction l with
  | nil => cases hm
  | cons x t ih =>
    rw [List.map_cons, List.nodup_cons] at hnd
    rcases List.mem_cons.mp hm with rfl | hm
    · rw [List.filter_cons, if_pos (by simpa using he)]
      have ht : t.filter (fun x => x.date = k) = [] := by
        rw [List.filter_eq_nil_iff]
        intro y hy
        simp only [decide_eq_true_eq]
        intro hyk
        exact hnd.1 (he ▸ hyk ▸ List.mem_map_of_mem _ hy)
      rw [ht]
    · have hx : ¬ x.date = k := by
        intro hxk
        exact hnd.1 (hxk ▸ he ▸ List.mem_map_of_mem _ hm)
      rw [List.filter_cons, if_neg (by simpa using hx)]
      exact ih hnd.2 hm

/-! ### Weight-tracking lemmas for the single-batch fold -/

theorem wAtA_stepDays_no_weight {l : Days} {row : Row}
    (hw : truthy (pyGet row "Weight") = false) (k : String) :
    wAtA (stepDays l row) k = wAtA l k := by
  by_cases hd : truthy (pyGet row "Date") = true
  · cases hk : parseDateKey ((pyGet row "Date").getD "") with
    | none => rw [stepDays_bad_date hd hk]
    | some key =>
      rw [stepDays_store hd hk]
      by_cases hkk : k = key
      · subst hkk
        unfold wAtA
        rw [lookupA_upsert_self, Option.some_bind, rowEntry_weight_no_weight k hw]
        cases hl : lookupA l k with
        | none => rfl
        | some old => rfl
      · unfold wAtA
        rw [lookupA_upsert_other _ hkk]
  · rw [stepDays_skip (Bool.eq_false_iff.mpr hd)]

theorem wAtA_foldl_no_weight {rows : List Row}
    (hw : ∀ r ∈ rows, truthy (pyGet r "Weight") = false) (l : Days) (k : String) :
    wAtA (rows.foldl stepDays l) k = wAtA l k := by
  induction rows generalizing l with
  | nil => rfl
  | cons r t ih =>
    rw [List.foldl_cons, ih (fun x hx => hw x (List.mem_cons_of_mem _ hx)),
      wAtA_stepDays_no_weight (hw r (List.mem_cons_self _ _))]

theorem wAtA_stepDays_weight_row {l : Days} {row : Row} {ds key w : String}
    (hd : pyGet row "Date" = some ds) (hds : ds ≠ "")
    (hk : parseDateKey ds = some key)
    (hww : pyGet row "Weight" = some w) (hw : w ≠ "") :
    wAtA (stepDays l row) key = some (_parse_number (some w)) := by
  have htd : truthy (pyGet row "Date") = true := by
    rw [hd]
    simpa [truthy] using hds
  have htw : truthy (pyGet row "Weight") = true := by
    rw [hww]
    simpa [truthy] using hw
  rw [stepDays_store htd (by rw [hd, Option.getD_some]; exact hk)]
  unfold wAtA
  rw [lookupA_upsert_self, Option.some_bind, rowEntry_weight_of_weight _ htw, hww]

/-! ### Re-merging a batch with itself (for the doubling property) -/

/-- Entry insertion shape used by the merge for a fresh date key. -/
def pairOf (e : DayEntry) : String × DayEntry := (e.date, e)

theorem pairOf_keys (M : List DayEntry) :
    (M.map pairOf).map Prod.fst = M.map (fun e => e.date) := by
  rw [List.map_map]
  rfl

theorem mergeEntry_of_some {acc : Days} {e old : DayEntry}
    (h : lookupA acc e.date = some old) :
    mergeEntry acc e = replaceA acc e.date (combine old e) := by
  unfold mergeEntry
  rw [h]

theorem mergeEntry_of_none {acc : Days} {e : DayEntry}
    (h : lookupA acc e.date = none) :
    mergeEntry acc e = acc ++ [(e.date, e)] := by
  unfold mergeEntry
  rw [h]

theorem foldl_mergeEntry_fresh {L : List DayEntry} {acc : Days}
    (hfresh : ∀ e ∈ L, lookupA acc e.date = none)
    (hnd : (L.map (fun x => x.date)).Nodup) :
    L.foldl mergeEntry acc = acc ++ L.map pairOf := by
  induction L generalizing acc with
  | nil => simp
  | cons e t ih =>
    rw [List.map_cons, List.nodup_cons] at hnd
    rw [List.foldl_cons, List.map_cons,
      mergeEntry_of_none (hfresh e (List.mem_cons_self _ _)), ih ?_ hnd.2]
    · rw [List.append_assoc]
      rfl
    · intro x hx
      rw [lookupA_append_single_other acc e
        (fun hxe => hnd.1 (by rw [← hxe]; exact List.mem_map_of_mem _ hx))]
      exact hfresh x (List.mem_cons_of_mem _ hx)

theorem foldl_mergeEntry_self_pass {M : List DayEntry} {P : Days}
    (hnd : ((P ++ M.map pairOf).map Prod.fst).Nodup) :
    M.foldl mergeEntry (P ++ M.map pairOf)
      = P ++ M.map (fun e => (e.date, combine e e)) := by
  induction M generalizing P with
  | nil => simp
  | cons e t ih =>
    rw [List.map_append, pairOf_keys, List.map_cons, List.nodup_append] at hnd
    have hePnot : e.date ∉ P.map Prod.fst := fun hmem =>
      hnd.2.2 hmem (List.mem_cons_self _ _)
    have hetnot : e.date ∉ t.map (fun x => x.date) := (List.nodup_cons.mp hnd.2.1).1
    have hlookP : lookupA P e.date = none := lookupA_eq_none_iff.mpr hePnot
    have hlookt : lookupA (t.map pairOf) e.date = none := by
      rw [lookupA_eq_none_iff, pairOf_keys]
      exact hetnot
    have hlook : lookupA (P ++ (e :: t).map pairOf) e.date = some e := by
      rw [List.map_cons, lookupA_append_of_none _ hlookP, lookupA_cons]
      simp [pairOf]
    have hstep : mergeEntry (P ++ (e :: t).map pairOf) e
        = (P ++ [(e.date, combine e e)]) ++ t.map pairOf := by
      rw [mergeEntry_of_some hlook, List.map_cons, replaceA_append,
        replaceA_of_none _ hlookP,
        show (pairOf e :: t.map pairOf : Days) = [pairOf e] ++ t.map pairOf from rfl,
        replaceA_append, replaceA_of_none _ hlookt]
      have hhead : replaceA [pairOf e] e.date (combine e e) = [(e.date, combine e e)] := by
        unfold replaceA pairOf
        simp
      rw [hhead, ← List.append_assoc]
    rw [List.foldl_cons, hstep, ih ?_]
    · rw [List.append_assoc, List.map_cons]
      rfl
    · rw [List.map_append, List.map_append, pairOf_keys, List.nodup_append]
      refine ⟨?_, (List.nodup_cons.mp hnd.2.1).2, ?_⟩
      · rw [List.nodup_append]
        refine ⟨hnd.1, List.nodup_singleton _, ?_⟩
        intro a ha hae
        rw [show (([(e.date, combine e e)] : Days).map Prod.fst) = [e.date] from rfl,
          List.mem_singleton] at hae
        exact hePnot (hae ▸ ha)
      · intro a ha hat
        rcases List.mem_append.mp ha with ha | ha
        · exact hnd.2.2 ha (List.mem_cons_of_mem _ hat)
        · rw [show (([(e.date, combine e e)] : Days).map Prod.fst) = [e.date] from rfl,
            List.mem_singleton] at ha
          exact hetnot (ha ▸ hat)

theorem combine_self (e : DayEntry) : combine e e = doubleNutrition e := by
  unfold combine doubleNutrition
  rw [ite_self, two_mul, two_mul, two_mul, two_mul, two_mul, two_mul, two_mul]

theorem doubleNutrition_date (e : DayEntry) :
    (doubleNutrition e).date = e.date := rfl

/-! ### Row-by-row structure of `parse_csv` (for the error-handling claims) -/

theorem rowWarn_skip {row : Row} (hd : truthy (pyGet row "Date") = false) :
    rowWarn row = [] := by
  unfold rowWarn
  rw [if_neg (by rw [hd]; exact Bool.false_ne_true)]

theorem rowWarn_bad {row : Row} (hd : truthy (pyGet row "Date") = true)
    (hk : parseDateKey ((pyGet row "Date").getD "") = none) :
    rowWarn row = [(pyGet row "Date").getD ""] := by
  unfold rowWarn
  rw [if_pos hd, hk]

theorem parse_csv_cons (row : Row) (rows : List Row) :
    parse_csv (row :: rows)
      = (sortByDate ((rows.foldl stepDays (stepDays [] row)).map Prod.snd),
         rowWarn row ++ (rows.map rowWarn).flatten) := by
  unfold parse_csv
  rw [List.foldl_cons, List.map_cons, List.flatten_cons]

/-! ### Food-entry extraction lemmas (spec-modelled component) -/

theorem foldl_append_toList {α β : Type} (g : α → Option β) (l : List α) (acc : List β) :
    l.foldl (fun a r => a ++ (g r).toList) acc = acc ++ l.filterMap g := by
  induction l generalizing acc with
  | nil => simp
  | cons x t ih =>
    rw [List.foldl_cons, ih, List.filterMap_cons]
    cases hx : g x with
    | none => simp
    | some b => simp

theorem foodsOf_eq_filterMap (rows : List Row) :
    foodsOf rows = rows.filterMap rowFood := by
  unfold foodsOf
  rw [foldl_append_toList]
  rfl

theorem foldl_append_foods (batches : List (List Row)) (acc : List FoodEntry) :
    batches.foldl (fun a b => a ++ foodsOf b) acc = acc ++ (batches.map foodsOf).flatten := by
  induction batches generalizing acc with
  | nil => simp
  | cons b t ih =>
    rw [List.foldl_cons, ih, List.map_cons, List.flatten_cons, List.append_assoc]

theorem length_filterMap_eq_countP {α β : Type} (g : α → Option β) (l : List α) :
    (l.filterMap g).length = l.countP (fun a => (g a).isSome) := by
  induction l with
  | nil => rfl
  | cons x t ih =>
    rw [List.filterMap_cons, List.countP_cons]
    cases hx : g x with
    | none => simpa [hx] using ih
    | some b => simpa [hx] using ih

/-! ## The claims -/

/-- Concrete rows used by the counterexamples and witnesses. -/
def rowC2 : Row :=
  [("Date", "2024-01-01"), ("Calories", "100"), ("Protein (g)", ""), ("Protein(g)", "20")]

def rowW150 : Row := [("Date", "2024-01-01"), ("Weight", "150")]

def rowNoW : Row := [("Date", "2024-01-01"), ("Calories", "300")]

def rowW0 : Row := [("Date", "2024-01-01"), ("Weight", "0")]

/-- C1: with food-entry extraction enabled, the (spec-modelled) extended parser
returns the `parse_multiple_csvs` daily aggregates unchanged alongside a
second collection of FoodEntry records; per batch that collection holds
exactly one FoodEntry per row that carries calorie data (`rowFood`), and the
multi-batch result is the per-batch lists concatenated in batch order. -/
theorem C1_food_entries_per_row_and_concat (batches : List (List Row)) :
    (parse_multiple_csvs_ext batches true).1 = parse_multiple_csvs batches ∧
    (parse_multiple_csvs_ext batches true).2
      = (batches.map (fun b => (parse_csv_ext b true).2)).flatten ∧
    (∀ rows : List Row, (parse_csv_ext rows true).2 = rows.filterMap rowFood) ∧
    (∀ rows : List Row, (parse_csv_ext rows true).2.length
        = rows.countP (fun r => (rowFood r).isSome)) := by
  refine ⟨rfl, ?_, ?_, ?_⟩
  · show batches.foldl (fun a b => a ++ foodsOf b) []
      = (batches.map (fun b => (parse_csv_ext b true).2)).flatten
    rw [foldl_append_foods, List.nil_append]
    rfl
  · intro rows
    show foodsOf rows = rows.filterMap rowFood
    exact foodsOf_eq_filterMap rows
  · intro rows
    show (foodsOf rows).length = _
    rw [foodsOf_eq_filterMap, length_filterMap_eq_countP]

/-- C2 (counterexample): on a row carrying the space-form key with an empty
value and the no-space key with value "20", the synonym fallback of the code
returns the non-empty no-space value "20" — not the empty space-form value the
claim predicts — and the aggregated protein for the day is 20, not 0. -/
theorem C2_synonym_presence_counterexample :
    resolve_field rowC2 "Protein (g)" "Protein(g)" = some "20" ∧
    ¬ resolve_field rowC2 "Protein (g)" "Protein(g)" = some "" ∧
    entryFor (parse_csv [rowC2]).1 "2024-01-01"
      = some { date := "2024-01-01", calories := 100, protein_g := 20, carbs_g := 0,
               fat_g := 0, sodium_mg := 0, sugar_g := 0, fiber_g := 0,
               weight_lbs := none } := by
  have h20 : resolve_field rowC2 "Protein (g)" "Protein(g)" = some "20" := by
    with_unfolding_all rfl
  refine ⟨h20, ?_, by with_unfolding_all rfl⟩
  intro h
  rw [h20] at h
  exact absurd (Option.some.inj h) (by decide)

/-- C2 (amended): the synonym fallback `row.get(k1) or row.get(k2, 0)` uses
truthiness, not presence: the space-form value is returned only when it is
present and non-empty, and an absent or empty space-form value falls through
to the no-space key. -/
theorem C2_synonym_truthiness_precedence (row : Row) (k1 k2 : String) :
    (∀ v : String, pyGet row k1 = some v → v ≠ "" → resolve_field row k1 k2 = some v) ∧
    ((pyGet row k1 = none ∨ pyGet row k1 = some "") →
      resolve_field row k1 k2 = pyGet row k2) := by
  constructor
  · intro v hv hne
    unfold resolve_field
    rw [if_pos (by rw [hv]; simpa [truthy] using hne)]
    exact hv
  · intro h
    unfold resolve_field
    rcases h with h | h <;>
      rw [if_neg (by rw [h]; simp [truthy])]

theorem C2_synonym_truthiness_precedence_witness :
    resolve_field rowC2 "Protein (g)" "Protein(g)" = pyGet rowC2 "Protein(g)" :=
  (C2_synonym_truthiness_precedence rowC2 "Protein (g)" "Protein(g)").2
    (Or.inr (by with_unfolding_all rfl))

/-- C3: when a date key appears in at least one batch, the merged output of
`parse_multiple_csvs` contains exactly one aggregate for that date, and each
of its seven nutrition fields equals the sum of that field over every batch
that touched the date (absent batches contributing 0). -/
theorem C3_cross_batch_nutrition_sums (batches : List (List Row)) (k : String)
    (h : ∃ b ∈ batches, (entryFor (parse_csv b).1 k).isSome = true) :
    ∃ e : DayEntry,
      (parse_multiple_csvs batches).filter (fun x => x.date = k) = [e] ∧
      e.calories = nutritionSum batches k (fun x => x.calories) ∧
      e.protein_g = nutritionSum batches k (fun x => x.protein_g) ∧
      e.carbs_g = nutritionSum batches k (fun x => x.carbs_g) ∧
      e.fat_g = nutritionSum batches k (fun x => x.fat_g) ∧
      e.sodium_mg = nutritionSum batches k (fun x => x.sodium_mg) ∧
      e.sugar_g = nutritionSum batches k (fun x => x.sugar_g) ∧
      e.fiber_g = nutritionSum batches k (fun x => x.fiber_g) := by
  have hsome := lookupA_foldl_mergeBatch_isSome ([] : Days) h
  obtain ⟨e, he⟩ := Option.isSome_iff_exists.mp hsome
  have hEF : entryFor (parse_multiple_csvs batches) k = some e := by
    rw [entryFor_parse_multiple_csvs]
    exact he
  have hmem := (entryFor_eq_some_iff (parse_multiple_csvs_dates_nodup batches)).mp hEF
  have key : ∀ (f : DayEntry → ℚ), (∀ o x, f (combine o x) = f o + f x) →
      f e = nutritionSum batches k f := by
    intro f hf
    have hh := foldl_mergeBatch_field f hf batches [] k
    rw [he] at hh
    simpa [optF, lookupA, nutritionSum] using hh
  exact ⟨e,
    filter_date_eq_singleton (parse_multiple_csvs_dates_nodup batches) hmem.1 hmem.2,
    key _ (fun o x => rfl), key _ (fun o x => rfl), key _ (fun o x => rfl),
    key _ (fun o x => rfl), key _ (fun o x => rfl), key _ (fun o x => rfl),
    key _ (fun o x => rfl)⟩

theorem C3_cross_batch_nutrition_sums_witness :
    ∃ e : DayEntry,
      (parse_multiple_csvs [[rowNoW], [[("Date", "2024-01-01"), ("Calories", "200")]]]).filter
          (fun x => x.date = "2024-01-01") = [e] ∧
      e.calories = nutritionSum [[rowNoW], [[("Date", "2024-01-01"), ("Calories", "200")]]]
          "2024-01-01" (fun x => x.calories) ∧
      e.protein_g = nutritionSum [[rowNoW], [[("Date", "2024-01-01"), ("Calories", "200")]]]
          "2024-01-01" (fun x => x.protein_g) ∧
      e.carbs_g = nutritionSum [[rowNoW], [[("Date", "2024-01-01"), ("Calories", "200")]]]
          "2024-01-01" (fun x => x.carbs_g) ∧
      e.fat_g = nutritionSum [[rowNoW], [[("Date", "2024-01-01"), ("Calories", "200")]]]
          "2024-01-01" (fun x => x.fat_g) ∧
      e.sodium_mg = nutritionSum [[rowNoW], [[("Date", "2024-01-01"), ("Calories", "200")]]]
          "2024-01-01" (fun x => x.sodium_mg) ∧
      e.sugar_g = nutritionSum [[rowNoW], [[("Date", "2024-01-01"), ("Calories", "200")]]]
          "2024-01-01" (fun x => x.sugar_g) ∧
      e.fiber_g = nutritionSum [[rowNoW], [[("Date", "2024-01-01"), ("Calories", "200")]]]
          "2024-01-01" (fun x => x.fiber_g) :=
  C3_cross_batch_nutrition_sums _ "2024-01-01"
    ⟨[rowNoW], List.mem_cons_self _ _, by with_unfolding_all rfl⟩

/-- C4: in the multi-batch merge, an incoming entry whose `weight_lbs` is
null never erases the previously merged weight (the conditional on lines
137-138 skips the overwrite); end to end, merging a batch recording weight
150 for a day with a later batch recording no weight for that day yields
weight 150. -/
theorem C4_null_weight_non_erasure :
    (∀ old e : DayEntry, e.weight_lbs = none →
      (combine old e).weight_lbs = old.weight_lbs) ∧
    weightAt (parse_multiple_csvs [[rowW150], [rowNoW]]) "2024-01-01" = some 150 := by
  refine ⟨?_, by with_unfolding_all rfl⟩
  intro old e he
  unfold combine
  rw [he]
  simp [wTruthy]

theorem C4_null_weight_non_erasure_witness :
    (combine
      { date := "2024-01-01", calories := 0, protein_g := 0, carbs_g := 0, fat_g := 0,
        sodium_mg := 0, sugar_g := 0, fiber_g := 0, weight_lbs := some 150 }
      (initDay "2024-01-01")).weight_lbs
      = ({ date := "2024-01-01", calories := 0, protein_g := 0, carbs_g := 0, fat_g := 0,
           sodium_mg := 0, sugar_g := 0, fiber_g := 0,
           weight_lbs := some 150 } : DayEntry).weight_lbs :=
  C4_null_weight_non_erasure.1 _ _ rfl

/-- C5: `_parse_number` is a total function: `None` and the empty string map
to 0, any string whose comma-stripped form fails numeric conversion maps to
0, and "1,234.5" maps to 1234.5. -/
theorem C5_parse_number_total_zero_default :
    _parse_number none = 0 ∧ _parse_number (some "") = 0 ∧
    (∀ s : String, parseDecimal (stripCommas s) = none → _parse_number (some s) = 0) ∧
    _parse_number (some "abc") = 0 ∧ _parse_number (some "1,234.5") = 1234.5 := by
  refine ⟨rfl, by with_unfolding_all rfl, ?_, by with_unfolding_all rfl,
    by with_unfolding_all rfl⟩
  intro s hs
  have hun : _parse_number (some s)
      = if s = "" then (0 : ℚ)
        else match parseDecimal (stripCommas s) with
          | some q => q
          | none => 0 := rfl
  rw [hun]
  by_cases h : s = ""
  · rw [if_pos h]
  · rw [if_neg h, hs]

theorem C5_parse_number_total_zero_default_witness :
    _parse_number (some "abc") = 0 :=
  C5_parse_number_total_zero_default.2.2.1 "abc" (by with_unfolding_all rfl)

/-- C6: parsing the same file twice and merging the two results via
`parse_multiple_csvs` equals parsing it once and doubling only the seven
nutrition sums of each aggregate (`doubleNutrition` preserves `date` and
`weight_lbs`). -/
theorem C6_double_parse_doubles_nutrition (rows : List Row) :
    parse_multiple_csvs [rows, rows] = ((parse_csv rows).1).map doubleNutrition := by
  have hnd : (((parse_csv rows).1).map (fun e => e.date)).Nodup := parse_csv_dates_nodup rows
  have h1 : mergeBatch [] rows = ((parse_csv rows).1).map pairOf := by
    unfold mergeBatch
    rw [foldl_mergeEntry_fresh (fun e _ => lookupA_nil e.date) hnd, List.nil_append]
  have h2 : mergeBatch (((parse_csv rows).1).map pairOf) rows
      = ((parse_csv rows).1).map (fun e => (e.date, combine e e)) := by
    unfold mergeBatch
    have hP : ((([] : Days) ++ ((parse_csv rows).1).map pairOf).map Prod.fst).Nodup := by
      rw [List.nil_append, pairOf_keys]
      exact hnd
    have := foldl_mergeEntry_self_pass hP
    rw [List.nil_append] at this
    rw [this]
    rfl
  unfold parse_multiple_csvs
  rw [show ([rows, rows] : List (List Row)).foldl mergeBatch []
      = mergeBatch (mergeBatch [] rows) rows from rfl, h1, h2]
  have hvals : (((parse_csv rows).1).map (fun e => (e.date, combine e e))).map Prod.snd
      = ((parse_csv rows).1).map doubleNutrition := by
    rw [List.map_map]
    exact List.map_congr_left (fun e _ => combine_self e)
  rw [hvals]
  have hsorted : List.Pairwise dateLE (((parse_csv rows).1).map doubleNutrition) := by
    rw [List.pairwise_map]
    exact (parse_csv_sorted rows).imp
      (fun h => by simpa [dateLE, doubleNutrition_date] using h)
  exact List.Sorted.insertionSort_eq hsorted

/-- C7 (counterexample): a row with no date field is dropped, but silently —
no warning is recorded — contradicting the claim that such a row is dropped
with a warning recorded. -/
theorem C7_silent_drop_counterexample :
    (parse_csv [[("Calories", "100")]]).1 = [] ∧
    (parse_csv [[("Calories", "100")]]).2 = [] ∧
    ¬ ∃ w : String, w ∈ (parse_csv [[("Calories", "100")]]).2 := by
  have h2 : (parse_csv [[("Calories", "100")]]).2 = [] := by with_unfolding_all rfl
  refine ⟨by with_unfolding_all rfl, h2, ?_⟩
  rintro ⟨w, hw⟩
  rw [h2] at hw
  simp at hw

/-- C7 (amended): the aggregation never raises, and a malformed row anywhere
in the input affects only itself: if a row with a missing or empty date field
occurs between any prefix and suffix of rows, the whole result (aggregates
and warnings) is the same as if that row were absent; if a row whose
non-empty date string fails to parse occurs between any prefix and suffix,
the aggregates are the same as if the row were absent and exactly one warning
(the offending date string) is recorded, in input position, between the
prefix's and the suffix's warnings. -/
theorem C7_malformed_rows_skipped :
    (∀ (pre : List Row) (row : Row) (rest : List Row),
        truthy (pyGet row "Date") = false →
        parse_csv (pre ++ row :: rest) = parse_csv (pre ++ rest)) ∧
    (∀ (pre : List Row) (row : Row) (rest : List Row) (d : String),
        pyGet row "Date" = some d → d ≠ "" → parseDateKey d = none →
        (parse_csv (pre ++ row :: rest)).1 = (parse_csv (pre ++ rest)).1 ∧
        (parse_csv (pre ++ row :: rest)).2
          = (parse_csv pre).2 ++ d :: (parse_csv rest).2) := by
  constructor
  · intro pre row rest hd
    unfold parse_csv
    rw [List.foldl_append, List.foldl_cons, stepDays_skip hd, ← List.foldl_append,
      List.map_append, List.map_cons, List.flatten_append, List.flatten_cons,
      rowWarn_skip hd, List.nil_append, ← List.flatten_append, ← List.map_append]
  · intro pre row rest d hd hdne hk
    have htd : truthy (pyGet row "Date") = true := by
      rw [hd]
      simpa [truthy] using hdne
    have hk' : parseDateKey ((pyGet row "Date").getD "") = none := by
      rw [hd, Option.getD_some]
      exact hk
    constructor
    · show sortByDate (((pre ++ row :: rest).foldl stepDays []).map Prod.snd)
        = sortByDate (((pre ++ rest).foldl stepDays []).map Prod.snd)
      rw [List.foldl_append, List.foldl_cons, stepDays_bad_date htd hk',
        ← List.foldl_append]
    · show ((pre ++ row :: rest).map rowWarn).flatten
        = (parse_csv pre).2 ++ d :: (parse_csv rest).2
      rw [List.map_append, List.map_cons, List.flatten_append, List.flatten_cons,
        rowWarn_bad htd hk', hd, Option.getD_some]
      rfl

theorem C7_malformed_rows_skipped_witness :
    parse_csv ([[("Date", "2024-01-01"), ("Calories", "5")]]
        ++ [("Calories", "7")] :: [[("Date", "2024-01-02"), ("Calories", "9")]])
      = parse_csv ([[("Date", "2024-01-01"), ("Calories", "5")]]
        ++ [[("Date", "2024-01-02"), ("Calories", "9")]]) ∧
    ((parse_csv ([[("Date", "2024-01-01"), ("Calories", "5")]]
        ++ [("Date", "notadate"), ("Calories", "7")]
          :: [[("Date", "2024-01-02"), ("Calories", "9")]])).1
      = (parse_csv ([[("Date", "2024-01-01"), ("Calories", "5")]]
        ++ [[("Date", "2024-01-02"), ("Calories", "9")]])).1 ∧
     (parse_csv ([[("Date", "2024-01-01"), ("Calories", "5")]]
        ++ [("Date", "notadate"), ("Calories", "7")]
          :: [[("Date", "2024-01-02"), ("Calories", "9")]])).2
      = (parse_csv [[("Date", "2024-01-01"), ("Calories", "5")]]).2
        ++ "notadate" :: (parse_csv [[("Date", "2024-01-02"), ("Calories", "9")]]).2) :=
  ⟨C7_malformed_rows_skipped.1 _ _ _ (by with_unfolding_all rfl),
   C7_malformed_rows_skipped.2 _ _ _ "notadate" (by with_unfolding_all rfl) (by decide)
     (by with_unfolding_all rfl)⟩

/-- C8: within a single batch, weight uses last-write-wins per date: if every
earlier row has an absent or empty weight value and the final row carries a
non-empty weight for a date, the resulting aggregate's weight is the parsed
weight of that final row. -/
theorem C8_single_batch_weight_last_write_wins
    (pre : List Row) (rn : Row) (ds k w : String)
    (hpre : ∀ r ∈ pre, truthy (pyGet r "Weight") = false)
    (hd : pyGet rn "Date" = some ds) (hds : ds ≠ "")
    (hk : parseDateKey ds = some k)
    (hw : pyGet rn "Weight" = some w) (hw' : w ≠ "") :
    wAtA (pre.foldl stepDays []) k = none ∧
    weightAt (parse_csv (pre ++ [rn])).1 k = some (_parse_number (some w)) := by
  constructor
  · rw [wAtA_foldl_no_weight hpre]
    rfl
  · have hfold : wAtA ((pre ++ [rn]).foldl stepDays []) k
        = some (_parse_number (some w)) := by
      rw [List.foldl_append, List.foldl_cons, List.foldl_nil]
      exact wAtA_stepDays_weight_row hd hds hk hw hw'
    unfold weightAt
    rw [entryFor_parse_csv]
    exact hfold

theorem C8_single_batch_weight_last_write_wins_witness :
    wAtA (([[("Date", "2024-01-01"), ("Calories", "100"), ("Weight", "")]] :
        List Row).foldl stepDays []) "2024-01-01" = none ∧
    weightAt (parse_csv ([[("Date", "2024-01-01"), ("Calories", "100"), ("Weight", "")]]
        ++ [[("Date", "2024-01-01"), ("Weight", "150")]])).1 "2024-01-01"
      = some (_parse_number (some "150")) :=
  C8_single_batch_weight_last_write_wins _ _ "2024-01-01" "2024-01-01" "150"
    (by
      intro r hr
      rw [List.mem_singleton] at hr
      subst hr
      with_unfolding_all rfl)
    (by with_unfolding_all rfl) (by decide) (by with_unfolding_all rfl)
    (by with_unfolding_all rfl) (by decide)

/-- C9: both `parse_csv` and `parse_multiple_csvs` return lists that are
strictly ascending in the date key — hence sorted ascending with at most one
entry per distinct calendar date. -/
theorem C9_unique_dates_sorted :
    (∀ rows : List Row,
      ((parse_csv rows).1).Pairwise (fun a b => a.date < b.date)) ∧
    (∀ batches : List (List Row),
      (parse_multiple_csvs batches).Pairwise (fun a b => a.date < b.date)) := by
  constructor
  · intro rows
    exact pairwise_lt_of_sorted_nodup (parse_csv_sorted rows) (parse_csv_dates_nodup rows)
  · intro batches
    exact pairwise_lt_of_sorted_nodup (sortByDate_sorted _)
      (parse_multiple_csvs_dates_nodup batches)

/-- C10: the merge overwrite condition tests Python truthiness of the incoming
weight, so an incoming weight equal to 0.0 — a genuine observation, distinct
from null — is treated like an absent weight and never overwrites a
previously merged weight: a batch recording weight 0 for a day leaves a
previously merged weight 150 in place. -/
theorem C10_zero_weight_never_overwrites :
    (∀ old e : DayEntry, e.weight_lbs = some 0 →
      (combine old e).weight_lbs = old.weight_lbs) ∧
    (parse_csv [rowW0]).1
      = [{ date := "2024-01-01", calories := 0, protein_g := 0, carbs_g := 0, fat_g := 0,
           sodium_mg := 0, sugar_g := 0, fiber_g := 0, weight_lbs := some 0 }] ∧
    weightAt (parse_multiple_csvs [[rowW150], [rowW0]]) "2024-01-01" = some 150 := by
  refine ⟨?_, by with_unfolding_all rfl, by with_unfolding_all rfl⟩
  intro old e he
  unfold combine
  rw [he]
  simp [wTruthy]

theorem C10_zero_weight_never_overwrites_witness :
    (combine
      { date := "2024-01-01", calories := 0, protein_g := 0, carbs_g := 0, fat_g := 0,
        sodium_mg := 0, sugar_g := 0, fiber_g := 0, weight_lbs := some 150 }
      { date := "2024-01-01", calories := 0, protein_g := 0, carbs_g := 0, fat_g := 0,
        sodium_mg := 0, sugar_g := 0, fiber_g := 0, weight_lbs := some 0 }).weight_lbs
      = ({ date := "2024-01-01", calories := 0, protein_g := 0, carbs_g := 0, fat_g := 0,
           sodium_mg := 0, sugar_g := 0, fiber_g := 0,
           weight_lbs := some 150 } : DayEntry).weight_lbs :=
  C10_zero_weight_never_overwrites.1 _ _ rfl

end LoseIt
